import Mathlib

/-!
Verification of the songbook-parsing core: a shallow embedding of the
chord-positioning and line-classification routines of the repository
(Croatian `pymupdf_span_parser.py` / `proportional_mapper.py`, Slovenian
`pdftotext_parser.py` / `hybrid_precise_parser.py`, and
`new_version/core/models.py`), together with theorems checking the
natural-language specification against that embedding.

Python strings are modelled as `List Char`; Python floats are modelled as
exact rationals `ℚ`; Python `int` values that may be negative are `ℤ`,
non-negative indices are `ℕ`.
-/

/-- Whitespace as recognised by Python's `str.split` / `str.strip` /
`\s` for the ASCII range (the source documents only contain these). -/
def isSpacePy (c : Char) : Bool :=
  c == ' ' || c == '\t' || c == '\n' || c == '\x0d' || c == '\x0b' || c == '\x0c'

/-- Python `c.isupper()` for the character repertoire of the corpus:
ASCII letters plus the Croatian/Slovenian diacritics. -/
def pyIsUpper (c : Char) : Bool :=
  ('A' ≤ c && c ≤ 'Z') || c == 'Č' || c == 'Ć' || c == 'Đ' || c == 'Š' || c == 'Ž'

/-- Python `c.islower()` for the same repertoire. -/
def pyIsLower (c : Char) : Bool :=
  ('a' ≤ c && c ≤ 'z') || c == 'č' || c == 'ć' || c == 'đ' || c == 'š' || c == 'ž'

/-- Python `str.lower`, character-wise, for the same repertoire. -/
def pyToLower (c : Char) : Char :=
  if 'A' ≤ c && c ≤ 'Z' then Char.ofNat (c.toNat + 32)
  else if c == 'Č' then 'č' else if c == 'Ć' then 'ć' else if c == 'Đ' then 'đ'
  else if c == 'Š' then 'š' else if c == 'Ž' then 'ž' else c

/-- Python `str.isupper()`: at least one cased character and no lowercase one. -/
def pyStrIsUpper (s : List Char) : Bool :=
  s.any (fun c => pyIsUpper c || pyIsLower c) && !(s.any pyIsLower)

/-- Python `str.strip()`. -/
def pyStrip (s : List Char) : List Char :=
  ((s.dropWhile isSpacePy).reverse.dropWhile isSpacePy).reverse

/-- Python `str.rstrip()`. -/
def pyRstrip (s : List Char) : List Char :=
  (s.reverse.dropWhile isSpacePy).reverse

/-- Worker for `pySplitPos`: one character at a time, carrying the word
currently being accumulated (characters reversed) and its start index. -/
def splitPosGo : List Char → ℕ → Option (List Char × ℕ) → List (List Char × ℕ)
  | [], _, none => []
  | [], _, some (w, p) => [(w.reverse, p)]
  | c :: cs, i, none =>
      if isSpacePy c then splitPosGo cs (i + 1) none
      else splitPosGo cs (i + 1) (some ([c], i))
  | c :: cs, i, some (w, p) =>
      if isSpacePy c then (w.reverse, p) :: splitPosGo cs (i + 1) none
      else splitPosGo cs (i + 1) (some (c :: w, p))

/-- The whitespace-delimited words of a line together with the index of
their first character: the `while i < len(chord_line)` tokenising loop of
`map_chords_proportionally`. -/
def pySplitPos (s : List Char) : List (List Char × ℕ) :=
  splitPosGo s 0 none

/-- Python `str.split()` (words only). -/
def pySplit (s : List Char) : List (List Char) :=
  (pySplitPos s).map Prod.fst

/-- Python `needle in hay` (substring containment). -/
def containsSub (hay nd : List Char) : Bool :=
  (List.range (hay.length + 1)).any (fun i => nd.isPrefixOf (hay.drop i))

/-- Python `hay.find(nd, start)`: the least index `≥ start` where `nd`
occurs, `none` when it does not occur. -/
def pyFindFrom (hay nd : List Char) (start : ℕ) : Option ℕ :=
  (List.range (hay.length + 1)).find? (fun i => start ≤ i && nd.isPrefixOf (hay.drop i))

/-! ### The Croatian chord system

Shared verbatim by `pymupdf_span_parser.py`, `proportional_mapper.py` and
the Slovenian `pdftotext_parser.py` (`__init__`): base minor/major chords,
expanded with numeric extensions and quality suffixes, plus `*` / `d*`. -/

def minor_base : List String :=
  ["e", "f", "fis", "g", "gis", "a", "b", "h", "c", "cis", "d", "dis"]

def major_base : List String :=
  ["E", "F", "FIS", "G", "GIS", "A", "B", "H", "C", "CIS", "D", "DIS"]

def chord_numbers : List String := ["7", "9", "11", "13"]

def chord_suffixes : List String := ["sus2", "sus4", "maj7", "min7", "dim", "aug", "add9"]

def base_chord_list : List String := minor_base ++ major_base

/-- The `valid_chords` set (order irrelevant, it is only queried for
membership). -/
def valid_chords : List String :=
  base_chord_list
    ++ base_chord_list.flatMap (fun c => chord_numbers.map (fun n => c ++ n))
    ++ base_chord_list.flatMap (fun c => chord_suffixes.map (fun s => c ++ s))
    ++ ["*", "d*"]

/-- Membership test `word in self.valid_chords`. -/
def validChord (w : List Char) : Bool :=
  valid_chords.contains (String.mk w)

/-- The `for i in range(1, len(word))` two-part split test used by
`_looks_like_chord`. -/
def hasChordSplit (w : List Char) : Bool :=
  (List.range' 1 (w.length - 1)).any (fun i => validChord (w.take i) && validChord (w.drop i))

/-- Embeds `_looks_like_chord` (identical in all three parsers): the word is in
the valid-chord set; or it contains a space and some part is; or it splits
into two valid chords. -/
def looks_like_chord (w : List Char) : Bool :=
  if validChord w then true
  else if w.contains ' ' then (pySplit w).any validChord
  else if w.length > 1 then hasChordSplit w
  else false

/-- Embeds `_is_chord_line_text` / `_is_chord_line`: more than 60% of the
whitespace tokens look like chords.  `count / len(words) > 0.6` over exact
rationals is `5 * count > 3 * len`. -/
def is_chord_line_text (t : List Char) : Bool :=
  let ws := pySplit t
  if ws.isEmpty then false
  else 5 * (ws.countP looks_like_chord) > 3 * ws.length

/-! ### Glyph metrics: `arial_char_widths` and `get_char_width`
(`pymupdf_span_parser.py`, also in `hybrid_precise_parser.py`). -/

/-- The `arial_char_widths` table, in font units (1000 per em); missing
glyphs use the documented average width 556. -/
def arialWidthUnits (c : Char) : ℕ :=
  match c with
  | 'A' => 667 | 'B' => 667 | 'C' => 722 | 'D' => 722 | 'E' => 667
  | 'F' => 611 | 'G' => 778 | 'H' => 722 | 'I' => 278 | 'J' => 500
  | 'K' => 667 | 'L' => 556 | 'M' => 833 | 'N' => 722 | 'O' => 778
  | 'P' => 667 | 'Q' => 778 | 'R' => 722 | 'S' => 667 | 'T' => 611
  | 'U' => 722 | 'V' => 667 | 'W' => 944 | 'X' => 667 | 'Y' => 667
  | 'Z' => 611
  | 'a' => 556 | 'b' => 556 | 'c' => 500 | 'd' => 556 | 'e' => 556
  | 'f' => 278 | 'g' => 556 | 'h' => 556 | 'i' => 222 | 'j' => 222
  | 'k' => 500 | 'l' => 222 | 'm' => 833 | 'n' => 556 | 'o' => 556
  | 'p' => 556 | 'q' => 556 | 'r' => 333 | 's' => 500 | 't' => 278
  | 'u' => 556 | 'v' => 500 | 'w' => 722 | 'x' => 500 | 'y' => 500
  | 'z' => 500
  | ' ' => 278 | '.' => 278 | ',' => 278 | ':' => 278 | ';' => 278
  | '!' => 333 | '?' => 556 | '"' => 355 | '\'' => 191
  | '(' => 333 | ')' => 333 | '[' => 278 | ']' => 278 | '\x7b' => 334
  | '\x7d' => 334 | '-' => 333 | '_' => 556 | '=' => 584
  | '+' => 584 | '*' => 389 | '/' => 278 | '\\' => 278 | '|' => 260
  | '&' => 667 | '%' => 889 | '$' => 556 | '#' => 556
  | '@' => 1015 | '^' => 469 | '~' => 584 | '`' => 333
  | '0' => 556 | '1' => 556 | '2' => 556 | '3' => 556 | '4' => 556
  | '5' => 556 | '6' => 556 | '7' => 556 | '8' => 556 | '9' => 556
  | _ => 556

/-- Embeds `get_char_width(char, font_size) = (font_units / 1000.0) * font_size`. -/
def get_char_width (c : Char) (font_size : ℚ) : ℚ :=
  (arialWidthUnits c : ℚ) / 1000 * font_size

/-- The `for i, char in enumerate(verse_text)` loop of
`map_chord_to_verse_position`: `current_pixel` starts at `cur`; the first
character whose advance-interval midpoint (`char_center`) reaches `x`
yields its index, otherwise the loop falls through to the text length. -/
def walkIdx (x font_size : ℚ) : ℚ → List Char → ℕ
  | _, [] => 0
  | cur, c :: cs =>
      if x ≤ cur + get_char_width c font_size / 2 then 0
      else walkIdx x font_size (cur + get_char_width c font_size) cs + 1

/-- Embeds `map_chord_to_verse_position` (`pymupdf_span_parser.py`): zero verse
span width short-circuits to 0; otherwise the chord x is clamped into the
verse span and walked against cumulative Arial advances; the result is
clamped into `[0, len]`.  The chord-span arguments are kept because the
Python signature has them (they are not used by the computation). -/
def map_chord_to_verse_position (chord_pixel_x _chord_span_start _chord_span_width : ℚ)
    (verse_text : List Char) (verse_span_start verse_span_width font_size : ℚ) : ℕ :=
  if verse_span_width = 0 then 0
  else
    let chord_x_clamped := max verse_span_start (min chord_pixel_x (verse_span_start + verse_span_width))
    let char_position := walkIdx chord_x_clamped font_size verse_span_start verse_text
    max 0 (min char_position verse_text.length)

/-- Cumulative Arial width of a string (`calculate_text_width`). -/
def cumWidth (font_size : ℚ) (cs : List Char) : ℚ :=
  (cs.map (fun c => get_char_width c font_size)).sum

/-- Specification-side description of the walk: the first index `i` whose
advance-interval midpoint (left edge plus the widths of the preceding
characters plus half its own width) reaches or exceeds `x`, or the text
length when no midpoint does. -/
def specCharIndex (x left font_size : ℚ) (text : List Char) : ℕ :=
  match (List.range text.length).find?
      (fun i => decide (x ≤ left + cumWidth font_size (text.take i)
                          + get_char_width (text.getD i ' ') font_size / 2)) with
  | some i => i
  | none => text.length

/-- Embeds `find_char_position_at_x` (`hybrid_precise_parser.py`): early return 0
left of the text start, then the same midpoint walk on `relative_x` with
the accumulator starting at 0; falls through to the text length. -/
def find_char_position_at_x (text : List Char) (font_size target_x text_start_x : ℚ) : ℕ :=
  if target_x ≤ text_start_x then 0
  else walkIdx (target_x - text_start_x) font_size 0 text

/-! ### `proportional_mapper.py` -/

/-- The `ChordPosition` record of `proportional_mapper.py`: chord name and character
offset into the lyric text. -/
structure PChord where
  chord : List Char
  position : ℕ
  deriving DecidableEq

/-- The role-marker list of `proportional_mapper.py`, already in the
longest-first order produced by `sorted(self.role_markers, key=len,
reverse=True)` (Python's sort is stable, so ties keep list order). -/
def proportional_role_markers : List String := ["K.+Z.", "K.", "Z.", "P."]

/-- Embeds `_extract_role_marker` (`proportional_mapper.py`): the first marker,
longest first, that prefixes the stripped line; `""` when none does. -/
def extract_role_marker (line : List Char) : List Char :=
  match proportional_role_markers.find? (fun r => r.toList.isPrefixOf (pyStrip line)) with
  | some r => r.toList
  | none => []

/-- The lyric text `map_chords_proportionally` works against: the line
after the role marker, stripped (note the slice is taken from the
original, unstripped line, exactly as in the source). -/
def proportionalTextContent (text_line : List Char) : List Char :=
  let rm := extract_role_marker text_line
  if rm.isEmpty then pyStrip text_line
  else pyStrip (text_line.drop rm.length)

/-- The per-chord offset computation of `map_chords_proportionally` when
`effective_chord_length > 0`:
`int(chord_pos / effective * len(text))` then `max(0, min(·, len(text)))`.
Python `int()` truncates toward zero; the value is non-negative here, so
truncation is `⌊·⌋`. -/
def proportionalOffset (chord_pos eff textLen : ℕ) : ℕ :=
  max 0 (min (⌊(chord_pos : ℚ) / (eff : ℚ) * (textLen : ℚ)⌋.toNat) textLen)

/-- Embeds `map_chords_proportionally` (`proportional_mapper.py`): tokenise the
chord line keeping start indices, keep the tokens that look like chords,
map each start index proportionally against the trailing-whitespace-free
chord-line length, and sort by offset (`sorted` is stable; insertion sort
on `≤` computes the same stable result). -/
def map_chords_proportionally (chord_line text_line : List Char) : List PChord :=
  let text_content := proportionalTextContent text_line
  let eff := (pyRstrip chord_line).length
  let found := (pySplitPos chord_line).filter (fun wp => looks_like_chord wp.1)
  let mapped := found.map (fun wp =>
    if 0 < eff then PChord.mk wp.1 (proportionalOffset wp.2 eff text_content.length)
    else PChord.mk wp.1 0)
  List.insertionSort (fun a b => a.position ≤ b.position) mapped

/-- Embeds `_is_comment_line` (`proportional_mapper.py`). -/
def is_comment_line (line : List Char) : Bool :=
  let lc := pyStrip line
  "(".toList.isPrefixOf lc &&
    (containsSub (lc.map pyToLower) "slijedi".toList
      || containsSub (lc.map pyToLower) "bez:".toList
      || lc.contains ')')

/-- The backward search of `_find_chords_with_proportional_mapping`,
examining index `j`, then `j-1`, ...: empty lines are skipped; the first
chord line is returned; a line with a role marker, or a non-empty line
that is neither chord nor comment, stops the search with no result. -/
def searchChordLineFrom (lines : List (List Char)) : ℕ → Option ℕ
  | 0 =>
      let l := lines.getD 0 []
      if (pyStrip l).isEmpty then none
      else if is_chord_line_text l then some 0
      else none
  | j + 1 =>
      let l := lines.getD (j + 1) []
      if (pyStrip l).isEmpty then searchChordLineFrom lines j
      else if is_chord_line_text l then some (j + 1)
      else if !(extract_role_marker l).isEmpty || !(is_comment_line l) then none
      else searchChordLineFrom lines j

/-- The chord-line lookup of `_find_chords_with_proportional_mapping`: the
backward search starts one line above `current_index` (no search when the
current line is the first). -/
def findChordLineAbove (lines : List (List Char)) (current_index : ℕ) : Option ℕ :=
  match current_index with
  | 0 => none
  | k + 1 => searchChordLineFrom lines k

/-- Embeds `_find_chords_with_proportional_mapping`: no qualifying chord line
gives the empty chord list, otherwise the found chord line is mapped
proportionally against the current text line. -/
def find_chords_with_proportional_mapping (lines : List (List Char)) (current_index : ℕ) :
    List PChord :=
  match findChordLineAbove lines current_index with
  | none => []
  | some j => map_chords_proportionally (lines.getD j []) (lines.getD current_index [])

/-! ### `pymupdf_span_parser.py`: span-based chord lookup -/

/-- ChordPosition of `pymupdf_span_parser.py` (with the diagnostic pixel
x-coordinate). -/
structure SChord where
  chord : List Char
  position : ℕ
  x_coord : ℚ
  deriving DecidableEq

/-- The per-line record the span parser builds in `_extract_span_data`
(the fields consulted by chord lookup). -/
structure LineData where
  text : List Char
  x_start : ℚ
  width : ℚ
  y : ℚ
  font_size : ℚ
  deriving DecidableEq

/-- State of the `for word in words` loop of
`find_chord_positions_in_span`: accumulated `(chord, pixel_x)` pairs and
`current_pos`. -/
def findChordPositionsGo (text : List Char) (span_start span_width : ℚ) :
    List (List Char) → ℕ → List (List Char × ℚ)
  | [], _ => []
  | w :: ws, current_pos =>
      if looks_like_chord w then
        match pyFindFrom text w current_pos with
        | some idx =>
            (w, span_start + (idx : ℚ) / (text.length : ℚ) * span_width)
              :: findChordPositionsGo text span_start span_width ws (idx + w.length)
        | none => findChordPositionsGo text span_start span_width ws current_pos
      else findChordPositionsGo text span_start span_width ws current_pos

/-- Embeds `find_chord_positions_in_span`: each chord-looking word of the span
text, located with `str.find` from `current_pos`, is given the pixel x
proportional to its character index within the span. -/
def find_chord_positions_in_span (chord_span_text : List Char)
    (chord_span_start chord_span_width : ℚ) : List (List Char × ℚ) :=
  findChordPositionsGo chord_span_text chord_span_start chord_span_width
    (pySplit chord_span_text) 0

/-- The best-chord-line fold of `_find_chords_with_span_positioning`:
among chord lines strictly above the text line, keep the one with the
strictly smallest distance (`min_distance` starts at infinity, so the
first candidate always wins against `none`). -/
def selectBestChordLine (text_y : ℚ) (chord_lines : List LineData) : Option LineData :=
  chord_lines.foldl
    (fun best cl =>
      if cl.y < text_y then
        match best with
        | none => some cl
        | some b => if text_y - cl.y < text_y - b.y then some cl else best
      else best)
    none

/-- Embeds `_find_chords_with_span_positioning`: no chord line above, or best
chord line farther than 18.0 px, yields no chords; otherwise every chord
of the chord span is mapped through `map_chord_to_verse_position` against
the stripped text content, and the list is sorted by offset. -/
def find_chords_with_span_positioning (text_line : LineData) (chord_lines : List LineData) :
    List SChord :=
  match selectBestChordLine text_line.y chord_lines with
  | none => []
  | some best =>
      if text_line.y - best.y > 18 then []
      else
        let cps := find_chord_positions_in_span best.text best.x_start best.width
        let chords := cps.map (fun cp =>
          SChord.mk cp.1
            (map_chord_to_verse_position cp.2 best.x_start best.width
              (pyStrip text_line.text) text_line.x_start text_line.width text_line.font_size)
            cp.2)
        List.insertionSort (fun a b => a.position ≤ b.position) chords

/-! ### `pymupdf_span_parser.py`: classification -/

/-- The role-marker list of `pymupdf_span_parser.py`. -/
def span_role_markers : List String := ["K.+Z.", "K.+P.", "K.", "Z.", "P.", "D."]

/-- One match attempt of the biblical-reference pattern
`\s*-\s*[A-Z][a-z]+\s*\d+[^)]*(\([^)]*\))?` at the head of `s`:
whitespace, a dash, whitespace, one ASCII capital, at least one ASCII
lowercase letter, whitespace, at least one digit, then everything up to
(excluding) the first `)`.  Greedy matching of `[^)]*` leaves the optional
parenthesised group unable to start, and regex backtracking stops at the
first success, so the group in the source pattern never consumes text.
Returns the remainder after the match, or `none`. -/
def matchBiblicalAt (s : List Char) : Option (List Char) :=
  let r1 := s.dropWhile isSpacePy
  match r1 with
  | '-' :: r2 =>
      let r3 := r2.dropWhile isSpacePy
      match r3 with
      | u :: r4 =>
          if 'A' ≤ u && u ≤ 'Z' then
            let low := r4.takeWhile (fun c => 'a' ≤ c && c ≤ 'z')
            let r5 := r4.dropWhile (fun c => 'a' ≤ c && c ≤ 'z')
            if low.isEmpty then none
            else
              let r6 := r5.dropWhile isSpacePy
              let dig := r6.takeWhile Char.isDigit
              let r7 := r6.dropWhile Char.isDigit
              if dig.isEmpty then none
              else some (r7.dropWhile (fun c => !(c == ')')))
          else none
      | [] => none
  | _ => none

/-- Embeds `re.sub(biblical_pattern, '', s)`: scan left to right, removing each
leftmost match and resuming after it (fuel is the string length; every
step consumes at least one character). -/
def subBiblicalGo : ℕ → List Char → List Char
  | 0, s => s
  | _ + 1, [] => []
  | fuel + 1, c :: cs =>
      match matchBiblicalAt (c :: cs) with
      | some rest => subBiblicalGo fuel rest
      | none => c :: subBiblicalGo fuel cs

/-- The first substitution of `_is_title_line`. -/
def subBiblical (s : List Char) : List Char :=
  subBiblicalGo s.length s

/-- Embeds `re.sub(r'\([^)]*\)', '', s)`: remove every parenthesised group that
closes (an unclosed `(` is kept). -/
def subParensGo : ℕ → List Char → List Char
  | 0, s => s
  | _ + 1, [] => []
  | fuel + 1, c :: cs =>
      if c == '(' then
        match cs.dropWhile (fun x => !(x == ')')) with
        | ')' :: rest => subParensGo fuel rest
        | _ => c :: subParensGo fuel cs
      else c :: subParensGo fuel cs

/-- The second substitution of `_is_title_line`. -/
def subParens (s : List Char) : List Char :=
  subParensGo s.length s

/-- The `text_for_case_check` value of `_is_title_line`: biblical references then
parenthesised text removed, then stripped. -/
def titleCaseCheckText (text_clean : List Char) : List Char :=
  pyStrip (subParens (subBiblical text_clean))

/-- The `is_mostly_uppercase` computation of `_is_title_line`: at least
70% of the letters of the reduced text are uppercase (`u/(u+l) >= 0.7`
over exact rationals is `10*u ≥ 7*(u+l)`); no letters counts as valid;
an empty reduced text falls back to `text_clean.isupper()`. -/
def titleMostlyUppercase (text_clean : List Char) : Bool :=
  let t := titleCaseCheckText text_clean
  if !t.isEmpty then
    let u := t.countP pyIsUpper
    let l := t.countP pyIsLower
    if 0 < u + l then 10 * u ≥ 7 * (u + l) else true
  else pyStrIsUpper text_clean

/-- Embeds `_is_title_line` (`pymupdf_span_parser.py`): mostly uppercase (after
discounting biblical references and parentheticals), longer than 4
characters, font at least 12 pt, the accent (pink) flag, no role-marker
substring, not a chord line, and no capo keyword. -/
def is_title_line (text : List Char) (font_size : ℚ) (is_pink : Bool) : Bool :=
  let text_clean := pyStrip text
  titleMostlyUppercase text_clean
    && text_clean.length > 4
    && font_size ≥ 12
    && is_pink
    && !(span_role_markers.any (fun r => containsSub text_clean r.toList))
    && !(is_chord_line_text text_clean)
    && !(containsSub (text_clean.map pyToLower) "kapodaster".toList)

/-- Embeds `_is_kapodaster_line`. -/
def is_kapodaster_line (text : List Char) (is_pink : Bool) : Bool :=
  let tl := (pyStrip text).map pyToLower
  is_pink && (containsSub tl "kapodaster".toList || containsSub tl "kapo".toList)

/-- Embeds `_is_comment_line_enhanced`. -/
def is_comment_line_enhanced (text : List Char) (is_pink : Bool) : Bool :=
  let tc := pyStrip text
  if is_pink && "(".toList.isPrefixOf tc && ")".toList.isSuffixOf tc then true
  else if "bez:".toList.isPrefixOf tc then true
  else if ")".toList.isSuffixOf tc
      && containsSub (tc.map pyToLower) "blagoslovljen".toList
      && !("SVET".toList.isPrefixOf tc) then true
  else if "*".toList.isPrefixOf tc
      && (containsSub (tc.map pyToLower) "zbor".toList
          || containsSub (tc.map pyToLower) "odgovara".toList) then true
  else false

/-- The classification a line receives in `_extract_span_data`. -/
inductive SpanRole where
  | chordLine
  | title
  | kapodaster
  | comment
  | text
  deriving DecidableEq

/-- The `if/elif` classification chain of `_extract_span_data`: chord
lines first, then titles, kapodaster, comments (a complete pink
parenthetical is routed back to the text lines as an inline comment),
and plain text as the default. -/
def classify_span_line (line_text : List Char) (font_size : ℚ) (is_pink : Bool) : SpanRole :=
  if is_chord_line_text line_text then .chordLine
  else if is_title_line line_text font_size is_pink then .title
  else if is_kapodaster_line line_text is_pink then .kapodaster
  else if is_comment_line_enhanced line_text is_pink then
    (if is_pink && "(".toList.isPrefixOf (pyStrip line_text)
        && ")".toList.isSuffixOf (pyStrip line_text) then .text else .comment)
  else .text

/-! ### `pdftotext_parser.py` (Slovenian): compound-chord splitting -/

/-- Embeds `_split_compound_chord`, with the string length as structural fuel
(each recursive call drops at least one character, so the length always
suffices): a valid chord stays whole; otherwise split points are tried in
increasing order and the first one whose two parts are both valid chords
is taken, the right part being split further; an unsplittable word is
returned as-is. -/
def splitCompoundFuel : ℕ → List Char → List (List Char)
  | 0, w => [w]
  | fuel + 1, w =>
      if validChord w then [w]
      else
        match (List.range' 1 (w.length - 1)).find?
            (fun i => validChord (w.take i) && validChord (w.drop i)) with
        | some i => w.take i :: splitCompoundFuel fuel (w.drop i)
        | none => [w]

/-- Embeds `_split_compound_chord` (`pdftotext_parser.py`). -/
def split_compound_chord (w : List Char) : List (List Char) :=
  splitCompoundFuel w.length w

/-! ### `new_version/core/models.py`: `VerseLine.to_chordpro` -/

/-- The `Chord` record of `new_version/core/models.py` (an `int` position may be any
integer, a float pixel x). -/
structure MChord where
  chord : List Char
  position : ℤ
  pixel_x : ℚ
  deriving DecidableEq

/-- The `f"[{chord.chord}]"` token inserted for a chord. -/
def chordTag (c : MChord) : List Char :=
  '[' :: (c.chord ++ [']'])

/-- The `for chord in sorted_chords` loop of `VerseLine.to_chordpro`,
with `lyric_pos` as explicit state; the trailing `text[lyric_pos:]` of the
source is the base case. -/
def toChordproGo (text : List Char) : List MChord → ℕ → List Char
  | [], lyric_pos => text.drop lyric_pos
  | c :: rest, lyric_pos =>
      if (text.length : ℤ) ≤ c.position then
        text.drop lyric_pos ++ (chordTag c ++ toChordproGo text rest text.length)
      else if (lyric_pos : ℤ) < c.position then
        (text.take c.position.toNat).drop lyric_pos
          ++ (chordTag c ++ toChordproGo text rest c.position.toNat)
      else chordTag c ++ toChordproGo text rest lyric_pos

/-- Embeds `VerseLine.to_chordpro`: the text unchanged for an empty chord list,
otherwise the loop over the chords sorted (stably) by position. -/
def to_chordpro (text : List Char) (chords : List MChord) : List Char :=
  if chords.isEmpty then text
  else toChordproGo text (List.insertionSort (fun a b => a.position ≤ b.position) chords) 0

/-- The output of `to_chordpro` decomposed into its pieces: `Sum.inl` for
a slice of the lyric text, `Sum.inr` for an inserted `[ChordName]` token.
Mirrors `toChordproGo` case for case. -/
def chordproPieces (text : List Char) : List MChord → ℕ → List (List Char ⊕ List Char)
  | [], lyric_pos => [.inl (text.drop lyric_pos)]
  | c :: rest, lyric_pos =>
      if (text.length : ℤ) ≤ c.position then
        .inl (text.drop lyric_pos) :: .inr (chordTag c) :: chordproPieces text rest text.length
      else if (lyric_pos : ℤ) < c.position then
        .inl ((text.take c.position.toNat).drop lyric_pos)
          :: .inr (chordTag c) :: chordproPieces text rest c.position.toNat
      else .inr (chordTag c) :: chordproPieces text rest lyric_pos

/-! ### Auxiliary definitions used by the theorems -/

/-- Variant of `map_chords_proportionally` with the per-chord float expression
`int(chord_pos / effective * len)` replaced by the equal natural-number
division `chord_pos * len / effective` (see `map_chords_eq_nat`). -/
def mapChordsPropNat (chord_line text_line : List Char) : List PChord :=
  let text_content := proportionalTextContent text_line
  let eff := (pyRstrip chord_line).length
  let found := (pySplitPos chord_line).filter (fun wp => looks_like_chord wp.1)
  let mapped := found.map (fun wp =>
    if 0 < eff then
      PChord.mk wp.1 (max 0 (min (wp.2 * text_content.length / eff) text_content.length))
    else PChord.mk wp.1 0)
  List.insertionSort (fun a b => a.position ≤ b.position) mapped

/-- Projection keeping only the lyric slices of a `chordproPieces`
decomposition (deleting the inserted `[ChordName]` tokens). -/
def pieceText (x : List Char ⊕ List Char) : Option (List Char) :=
  match x with
  | .inl s => some s
  | .inr _ => none

/-! ## Helper lemmas -/

theorem proportionalOffset_eq_div (p eff n : ℕ) :
    proportionalOffset p eff n = max 0 (min (p * n / eff) n) := by
  unfold proportionalOffset
  have h1 : (p : ℚ) / (eff : ℚ) * (n : ℚ) = ((p * n : ℕ) : ℚ) / ((eff : ℕ) : ℚ) := by
    push_cast; ring
  rw [h1, Rat.floor_natCast_div_natCast, ← Int.natCast_div, Int.toNat_natCast]

theorem map_chords_eq_nat (cl tl : List Char) :
    map_chords_proportionally cl tl = mapChordsPropNat cl tl := by
  unfold map_chords_proportionally mapChordsPropNat
  dsimp only
  congr 1
  apply List.map_congr_left
  intro wp _
  split
  · rw [proportionalOffset_eq_div]
  · rfl

theorem specCharIndex_le_length (x left fs : ℚ) (t : List Char) :
    specCharIndex x left fs t ≤ t.length := by
  unfold specCharIndex
  cases h : (List.range t.length).find? _ with
  | none => exact le_refl _
  | some i =>
      have := List.mem_of_find?_eq_some h
      exact le_of_lt (List.mem_range.mp this)

theorem walkIdx_eq_specCharIndex (x fs : ℚ) :
    ∀ (t : List Char) (cur : ℚ), walkIdx x fs cur t = specCharIndex x cur fs t := by
  intro t
  induction t with
  | nil => intro cur; simp [walkIdx, specCharIndex]
  | cons c cs ih =>
      intro cur
      unfold specCharIndex
      rw [List.length_cons, List.range_succ_eq_map, List.find?_cons]
      by_cases hx : x ≤ cur + get_char_width c fs / 2
      · have hp : decide (x ≤ cur + cumWidth fs ((c :: cs).take 0)
            + get_char_width ((c :: cs).getD 0 ' ') fs / 2) = true := by
          simp [cumWidth, hx]
        rw [hp]
        simp [walkIdx, hx]
      · have hp : decide (x ≤ cur + cumWidth fs ((c :: cs).take 0)
            + get_char_width ((c :: cs).getD 0 ' ') fs / 2) = false := by
          simp [cumWidth]
          linarith [not_le.mp hx]
        rw [hp, List.find?_map]
        have hfun : ((fun i => decide (x ≤ cur + cumWidth fs ((c :: cs).take i)
              + get_char_width ((c :: cs).getD i ' ') fs / 2)) ∘ Nat.succ)
            = (fun i => decide (x ≤ (cur + get_char_width c fs) + cumWidth fs (cs.take i)
              + get_char_width (cs.getD i ' ') fs / 2)) := by
          funext i
          simp only [Function.comp_apply, List.take_succ_cons, List.getD_cons_succ]
          rw [decide_eq_decide]
          have : cumWidth fs (c :: cs.take i) = get_char_width c fs + cumWidth fs (cs.take i) := by
            simp [cumWidth]
          rw [this]
          constructor <;> intro <;> linarith
        rw [hfun]
        have hwalk : walkIdx x fs cur (c :: cs) = walkIdx x fs (cur + get_char_width c fs) cs + 1 := by
          rw [walkIdx]
          simp [hx]
        rw [hwalk, ih (cur + get_char_width c fs)]
        unfold specCharIndex
        cases h : (List.range cs.length).find? (fun i =>
            decide (x ≤ (cur + get_char_width c fs) + cumWidth fs (cs.take i)
              + get_char_width (cs.getD i ' ') fs / 2)) with
        | none => simp [h]
        | some i => simp [h]

theorem get_char_width_nonneg (c : Char) (fs : ℚ) (h : 0 ≤ fs) : 0 ≤ get_char_width c fs := by
  unfold get_char_width
  have : (0:ℚ) ≤ (arialWidthUnits c : ℚ) / 1000 := by positivity
  exact mul_nonneg this h

theorem specCharIndex_shift (x d fs : ℚ) (t : List Char) :
    specCharIndex (x - d) 0 fs t = specCharIndex x d fs t := by
  unfold specCharIndex
  congr 1
  congr 1
  funext i
  rw [decide_eq_decide]
  constructor <;> intro <;> linarith

theorem specCharIndex_zero_of_le (x left fs : ℚ) (t : List Char)
    (hx : x ≤ left) (hf : 0 ≤ fs) : specCharIndex x left fs t = 0 := by
  unfold specCharIndex
  cases t with
  | nil => simp
  | cons c cs =>
      rw [List.length_cons, List.range_succ_eq_map, List.find?_cons]
      have hp : decide (x ≤ left + cumWidth fs ((c :: cs).take 0)
          + get_char_width ((c :: cs).getD 0 ' ') fs / 2) = true := by
        simp only [List.take_zero, List.getD_cons_zero, decide_eq_true_eq]
        have := get_char_width_nonneg c fs hf
        simp only [cumWidth, List.map_nil, List.sum_nil]
        linarith
      rw [hp]

/-- C2: for every chord pixel x, lyric text, lyric-run left edge, span
width and (non-negative) font size, the direct pixel mapper equals the
specification-side description: clamp x into `[left, left + width]`, then
return the index of the first character whose advance-interval midpoint
reaches or exceeds the clamped x, or the text length if none does.  The
same holds for the Slovenian `find_char_position_at_x` walk. -/
theorem direct_pixel_mapping_spec (x s w vs vw fs : ℚ) (t : List Char)
    (hf : 0 ≤ fs) :
    map_chord_to_verse_position x s w t vs vw fs
      = specCharIndex (max vs (min x (vs + vw))) vs fs t
    ∧ find_char_position_at_x t fs x vs = specCharIndex x vs fs t := by
  constructor
  · unfold map_chord_to_verse_position
    by_cases hw : vw = 0
    · rw [if_pos hw, hw]
      rw [(specCharIndex_zero_of_le (max vs (min x (vs + 0))) vs fs t
        (by rw [add_zero]; exact max_le (le_refl vs) (min_le_right x vs)) hf)]
    · rw [if_neg hw]
      dsimp only
      rw [walkIdx_eq_specCharIndex]
      simp [Nat.zero_max, min_eq_left (specCharIndex_le_length _ _ _ _)]
  · unfold find_char_position_at_x
    by_cases hx : x ≤ vs
    · rw [if_pos hx, specCharIndex_zero_of_le x vs fs t hx hf]
    · rw [if_neg hx, walkIdx_eq_specCharIndex, specCharIndex_shift]

/-- witness C2 -/
theorem direct_pixel_mapping_spec_witness :
    (0:ℚ) ≤ 10
    ∧ map_chord_to_verse_position 7 0 0 "ab".toList 0 10 10
      = specCharIndex (max 0 (min 7 (0 + 10))) 0 10 "ab".toList
    ∧ find_char_position_at_x "ab".toList 10 7 0 = specCharIndex 7 0 10 "ab".toList := by
  refine ⟨by norm_num, ?_⟩
  exact direct_pixel_mapping_spec 7 0 0 0 10 10 "ab".toList (by norm_num)

/-- C6: for every position-mapping input whose lyric span has degenerate
geometry (zero span width), the position mapper returns offset 0 (and,
being a total function, never aborts). -/
theorem degenerate_geometry_maps_to_zero (x s w vs fs : ℚ) (t : List Char) (vw : ℚ)
    (h : vw = 0) : map_chord_to_verse_position x s w t vs vw fs = 0 := by
  unfold map_chord_to_verse_position
  rw [if_pos h]

/-- witness C6 -/
theorem degenerate_geometry_witness :
    (0:ℚ) = 0 ∧ map_chord_to_verse_position 100 0 0 "abc".toList 5 0 12 = 0 :=
  ⟨rfl, degenerate_geometry_maps_to_zero 100 0 0 5 12 "abc".toList 0 rfl⟩

/-- C1: under both mapping strategies the computed chord offset lies in
`[0, len(text)]` (the lower bound holds because offsets are naturals):
the direct pixel mapper is bounded by the verse length for all inputs;
every chord produced by the proportional fallback is bounded by the
length of the computed lyric text; and the proportional mapper emits
exactly one chord per chord token found, so no chord is dropped. -/
theorem computed_offsets_in_bounds :
    (∀ (x s w vs vw fs : ℚ) (t : List Char),
      map_chord_to_verse_position x s w t vs vw fs ≤ t.length)
    ∧ (∀ (cl tl : List Char) (c : PChord), c ∈ map_chords_proportionally cl tl →
        c.position ≤ (proportionalTextContent tl).length)
    ∧ (∀ cl tl : List Char, (map_chords_proportionally cl tl).length
        = ((pySplitPos cl).filter (fun wp => looks_like_chord wp.1)).length) := by
  refine ⟨?_, ?_, ?_⟩
  · intro x s w vs vw fs t
    unfold map_chord_to_verse_position
    split
    · exact Nat.zero_le _
    · simp [Nat.zero_max]
  · intro cl tl c hc
    rw [map_chords_eq_nat] at hc
    unfold mapChordsPropNat at hc
    dsimp only at hc
    have hm := (List.perm_insertionSort (fun a b : PChord => a.position ≤ b.position) _).mem_iff.mp hc
    obtain ⟨wp, _, hwp⟩ := List.mem_map.mp hm
    by_cases h0 : 0 < (pyRstrip cl).length
    · rw [if_pos h0] at hwp
      rw [← hwp]
      simp [Nat.zero_max]
    · rw [if_neg h0] at hwp
      rw [← hwp]
      exact Nat.zero_le _
  · intro cl tl
    rw [map_chords_eq_nat]
    unfold mapChordsPropNat
    dsimp only
    rw [(List.perm_insertionSort _ _).length_eq, List.length_map]

/-- witness C1 -/
theorem computed_offsets_in_bounds_witness :
    PChord.mk "C".toList 1 ∈ map_chords_proportionally " C".toList "abc".toList
    ∧ (PChord.mk "C".toList 1).position ≤ (proportionalTextContent "abc".toList).length := by
  have hmem : PChord.mk "C".toList 1 ∈ map_chords_proportionally " C".toList "abc".toList := by
    rw [map_chords_eq_nat]; decide
  exact ⟨hmem, computed_offsets_in_bounds.2.1 " C".toList "abc".toList _ hmem⟩

/-- C3 counterexample: for chord line `" C"` (token `C` at index 1,
effective length 2) over lyric text `"abc"` (length 3), the code computes
offset `int(1/2*3) = 1`, whereas the claimed formula
`round(1/2*3) = 2`: the proportional fallback truncates, it does not
round. -/
theorem proportional_rounding_counterexample :
    (map_chords_proportionally " C".toList "abc".toList).map (fun c => c.position) = [1]
    ∧ max 0 (min ((round (((1:ℚ) / 2) * 3)).toNat) 3) = 2
    ∧ (1 : ℕ) ≠ 2 := by
  refine ⟨?_, ?_, by decide⟩
  · rw [map_chords_eq_nat]; decide
  · have h1 : ((1:ℚ) / 2) * 3 = 3 / 2 := by norm_num
    have h2 : round ((3:ℚ) / 2) = 2 := by
      rw [round_eq]
      norm_num
    rw [h1, h2]
    decide

/-- C3 amended: every chord emitted by the proportional fallback stems
from a chord token at some start index `i` of the chord line and carries
the offset `⌊(i / effectiveChordLineLength) × len(lyricText)⌋` (floor,
i.e. Python `int` truncation of a non-negative value, here written as
natural division `i * len / eff`) clamped to `[0, len(lyricText)]`;
when the effective chord-line length is zero the offset is 0. -/
theorem proportional_offset_is_floor (cl tl : List Char) (c : PChord)
    (hc : c ∈ map_chords_proportionally cl tl) :
    ∃ wp ∈ (pySplitPos cl).filter (fun wp => looks_like_chord wp.1),
      c.chord = wp.1
      ∧ c.position = (if 0 < (pyRstrip cl).length
          then max 0 (min (wp.2 * (proportionalTextContent tl).length / (pyRstrip cl).length)
            (proportionalTextContent tl).length)
          else 0) := by
  rw [map_chords_eq_nat] at hc
  unfold mapChordsPropNat at hc
  dsimp only at hc
  have hm := (List.perm_insertionSort (fun a b : PChord => a.position ≤ b.position) _).mem_iff.mp hc
  obtain ⟨wp, hwpmem, hwp⟩ := List.mem_map.mp hm
  refine ⟨wp, hwpmem, ?_⟩
  by_cases h0 : 0 < (pyRstrip cl).length
  · rw [if_pos h0] at hwp
    rw [if_pos h0, ← hwp]
    exact ⟨rfl, rfl⟩
  · rw [if_neg h0] at hwp
    rw [if_neg h0, ← hwp]
    exact ⟨rfl, rfl⟩

/-- witness C3 -/
theorem proportional_offset_is_floor_witness :
    PChord.mk "C".toList 1 ∈ map_chords_proportionally " C".toList "abc".toList
    ∧ ∃ wp ∈ (pySplitPos " C".toList).filter (fun wp => looks_like_chord wp.1),
        (PChord.mk "C".toList 1).chord = wp.1
        ∧ (PChord.mk "C".toList 1).position = (if 0 < (pyRstrip " C".toList).length
            then max 0 (min (wp.2 * (proportionalTextContent "abc".toList).length
                / (pyRstrip " C".toList).length)
              (proportionalTextContent "abc".toList).length)
            else 0) := by
  have hmem : PChord.mk "C".toList 1 ∈ map_chords_proportionally " C".toList "abc".toList := by
    rw [map_chords_eq_nat]; decide
  exact ⟨hmem, proportional_offset_is_floor " C".toList "abc".toList _ hmem⟩

theorem selectBestChordLine_mem (ty : ℚ) :
    ∀ (cls : List LineData) (acc : Option LineData) (b : LineData),
      cls.foldl
        (fun best cl =>
          if cl.y < ty then
            match best with
            | none => some cl
            | some b0 => if ty - cl.y < ty - b0.y then some cl else best
          else best)
        acc = some b →
      acc = some b ∨ (b ∈ cls ∧ b.y < ty) := by
  intro cls
  induction cls with
  | nil => intro acc b h; exact Or.inl h
  | cons c cs ih =>
      intro acc b h
      rw [List.foldl_cons] at h
      rcases ih _ b h with h1 | h1
      · by_cases hy : c.y < ty
        · rw [if_pos hy] at h1
          cases acc with
          | none =>
              simp only [Option.some.injEq] at h1
              exact Or.inr ⟨h1 ▸ List.mem_cons_self c cs, h1 ▸ hy⟩
          | some a =>
              dsimp only at h1
              by_cases hd : ty - c.y < ty - a.y
              · rw [if_pos hd] at h1
                simp only [Option.some.injEq] at h1
                exact Or.inr ⟨h1 ▸ List.mem_cons_self c cs, h1 ▸ hy⟩
              · rw [if_neg hd] at h1
                exact Or.inl h1
        · rw [if_neg hy] at h1
          exact Or.inl h1
      · exact Or.inr ⟨List.mem_cons_of_mem c h1.1, h1.2⟩

/-- C5: for every lyric line all of whose chord lines above lie farther
than the 18 px maximum vertical distance (in particular whenever the
nearest one does), the span-based chord lookup returns the empty chord
list, and no error is raised (the function is total). -/
theorem distant_chord_line_yields_no_chords (t : LineData) (cls : List LineData)
    (h : ∀ cl ∈ cls, cl.y < t.y → t.y - cl.y > 18) :
    find_chords_with_span_positioning t cls = [] := by
  unfold find_chords_with_span_positioning
  cases hsel : selectBestChordLine t.y cls with
  | none => rfl
  | some b =>
      unfold selectBestChordLine at hsel
      rcases selectBestChordLine_mem t.y cls none b hsel with h1 | h1
      · exact absurd h1 (by simp)
      · dsimp only
        rw [if_pos (h b h1.1 h1.2)]

/-- witness C5 -/
theorem distant_chord_line_witness :
    (∀ cl ∈ [LineData.mk "C".toList 0 5 50 10], cl.y < (LineData.mk "ab".toList 0 10 100 10).y →
      (LineData.mk "ab".toList 0 10 100 10).y - cl.y > 18)
    ∧ find_chords_with_span_positioning (LineData.mk "ab".toList 0 10 100 10)
        [LineData.mk "C".toList 0 5 50 10] = [] := by
  have h : ∀ cl ∈ [LineData.mk "C".toList 0 5 50 10],
      cl.y < (LineData.mk "ab".toList 0 10 100 10).y →
      (LineData.mk "ab".toList 0 10 100 10).y - cl.y > 18 := by
    intro cl hcl _
    rw [List.mem_singleton] at hcl
    rw [hcl]
    norm_num
  exact ⟨h, distant_chord_line_yields_no_chords _ _ h⟩

theorem searchChordLineFrom_spec (lines : List (List Char)) :
    ∀ j0 j, searchChordLineFrom lines j0 = some j →
      j ≤ j0 ∧ is_chord_line_text (lines.getD j []) = true
      ∧ ∀ m, j < m → m ≤ j0 →
          (pyStrip (lines.getD m [])).isEmpty = true
          ∨ ((extract_role_marker (lines.getD m [])).isEmpty = true
              ∧ is_comment_line (lines.getD m []) = true
              ∧ is_chord_line_text (lines.getD m []) = false) := by
  intro j0
  induction j0 with
  | zero =>
      intro j h
      unfold searchChordLineFrom at h
      by_cases h1 : (pyStrip (lines.getD 0 [])).isEmpty = true
      · rw [if_pos h1] at h; exact absurd h (by simp)
      · rw [if_neg h1] at h
        by_cases h2 : is_chord_line_text (lines.getD 0 []) = true
        · rw [if_pos h2] at h
          have hj : j = 0 := by simpa using h.symm
          subst hj
          exact ⟨le_refl 0, h2, fun m hm1 hm2 => absurd (lt_of_lt_of_le hm1 hm2) (lt_irrefl _)⟩
        · rw [if_neg h2] at h; exact absurd h (by simp)
  | succ j0 ih =>
      intro j h
      unfold searchChordLineFrom at h
      by_cases h1 : (pyStrip (lines.getD (j0 + 1) [])).isEmpty = true
      · rw [if_pos h1] at h
        obtain ⟨hj, hc, hmid⟩ := ih j h
        refine ⟨le_trans hj (Nat.le_succ _), hc, fun m hm1 hm2 => ?_⟩
        rcases eq_or_lt_of_le hm2 with hm | hm
        · exact Or.inl (hm ▸ h1)
        · exact hmid m hm1 (Nat.lt_succ_iff.mp hm)
      · rw [if_neg h1] at h
        by_cases h2 : is_chord_line_text (lines.getD (j0 + 1) []) = true
        · rw [if_pos h2] at h
          have hj : j = j0 + 1 := by simpa using h.symm
          subst hj
          exact ⟨le_refl _, h2, fun m hm1 hm2 => absurd (lt_of_lt_of_le hm1 hm2) (lt_irrefl _)⟩
        · rw [if_neg h2] at h
          by_cases h3 : (!(extract_role_marker (lines.getD (j0 + 1) [])).isEmpty
              || !(is_comment_line (lines.getD (j0 + 1) []))) = true
          · rw [if_pos h3] at h; exact absurd h (by simp)
          · rw [if_neg h3] at h
            simp only [Bool.or_eq_true, Bool.not_eq_true', not_or] at h3
            obtain ⟨hrole, hcomment⟩ := h3
            obtain ⟨hj, hc, hmid⟩ := ih j h
            refine ⟨le_trans hj (Nat.le_succ _), hc, fun m hm1 hm2 => ?_⟩
            rcases eq_or_lt_of_le hm2 with hm | hm
            · subst hm
              exact Or.inr ⟨by simpa using hrole, by simpa using hcomment,
                Bool.not_eq_true _ ▸ (by simpa using h2)⟩
            · exact hmid m hm1 (Nat.lt_succ_iff.mp hm)

/-- C4 amended: in the proportional mapper, whenever the backward search
finds a chord line at index `j` for the text line at `current_index`,
every line strictly between them is either blank or a comment line
without a role marker — so the search never crosses a role-marker line or
a plain text line.  (The span-based parser does not implement this stop:
see the counterexample.) -/
theorem proportional_search_stops_at_text (lines : List (List Char)) (idx j : ℕ)
    (h : findChordLineAbove lines idx = some j) :
    j < idx ∧ is_chord_line_text (lines.getD j []) = true
    ∧ ∀ m, j < m → m < idx →
        (pyStrip (lines.getD m [])).isEmpty = true
        ∨ ((extract_role_marker (lines.getD m [])).isEmpty = true
            ∧ is_comment_line (lines.getD m []) = true
            ∧ is_chord_line_text (lines.getD m []) = false) := by
  unfold findChordLineAbove at h
  cases idx with
  | zero => exact absurd h (by simp)
  | succ k =>
      obtain ⟨hj, hc, hmid⟩ := searchChordLineFrom_spec lines k j h
      exact ⟨Nat.lt_succ_of_le hj, hc, fun m hm1 hm2 => hmid m hm1 (Nat.lt_succ_iff.mp hm2)⟩

/-- witness C4 -/
theorem proportional_search_witness :
    findChordLineAbove ["E A".toList, [], "la la".toList] 2 = some 0
    ∧ (0 < 2 ∧ is_chord_line_text (["E A".toList, [], "la la".toList].getD 0 []) = true
        ∧ ∀ m, 0 < m → m < 2 →
            (pyStrip (["E A".toList, [], "la la".toList].getD m [])).isEmpty = true
            ∨ ((extract_role_marker (["E A".toList, [], "la la".toList].getD m [])).isEmpty = true
                ∧ is_comment_line (["E A".toList, [], "la la".toList].getD m []) = true
                ∧ is_chord_line_text (["E A".toList, [], "la la".toList].getD m []) = false)) := by
  have h : findChordLineAbove ["E A".toList, [], "la la".toList] 2 = some 0 := by decide
  exact ⟨h, proportional_search_stops_at_text _ 2 0 h⟩

/-- C4 counterexample: in the span-based parser the chord lookup selects
the nearest chord line above within 18 px regardless of intervening text
lines: with a chord line at y 0 and a lyric line at y 15, chords are
attached even though another text line could lie at y 10, strictly
between them, contradicting the claim that chords never cross an
intervening text line. -/
theorem span_lookup_crosses_intervening_text :
    (LineData.mk "C".toList 0 5 0 10).y < (10:ℚ)
    ∧ (10:ℚ) < (LineData.mk "ab".toList 0 10 15 10).y
    ∧ find_chords_with_span_positioning (LineData.mk "ab".toList 0 10 15 10)
        [LineData.mk "C".toList 0 5 0 10] ≠ [] := by
  refine ⟨by norm_num, by norm_num, ?_⟩
  have hlen : (find_chord_positions_in_span "C".toList 0 5).length = 1 := by
    unfold find_chord_positions_in_span
    have hs : pySplit "C".toList = ["C".toList] := by decide
    rw [hs]
    unfold findChordPositionsGo
    rw [if_pos (by decide : looks_like_chord "C".toList = true)]
    have hf : pyFindFrom "C".toList "C".toList 0 = some 0 := by decide
    rw [hf]
    rfl
  unfold find_chords_with_span_positioning selectBestChordLine
  rw [List.foldl_cons, List.foldl_nil]
  dsimp only
  rw [if_pos (by norm_num : (0:ℚ) < 15)]
  dsimp only
  rw [if_neg (by norm_num : ¬((15:ℚ) - 0 > 18))]
  intro hemp
  have hlength := congrArg List.length hemp
  rw [(List.perm_insertionSort _ _).length_eq, List.length_map, hlen] at hlength
  exact absurd hlength (by decide)

/-- C7: every text line strictly more than 60% of whose whitespace tokens
match the chord grammar is classified as a chord line, whatever its font
size and accent flag — in particular it is never classified as a title. -/
theorem chord_majority_wins_classification (t : List Char) (fs : ℚ) (pink : Bool)
    (h1 : (pySplit t).isEmpty = false)
    (h2 : 5 * ((pySplit t).countP looks_like_chord) > 3 * (pySplit t).length) :
    classify_span_line t fs pink = SpanRole.chordLine
    ∧ classify_span_line t fs pink ≠ SpanRole.title := by
  have hc : is_chord_line_text t = true := by
    unfold is_chord_line_text
    dsimp only
    rw [if_neg (by simp [h1])]
    exact decide_eq_true h2
  constructor
  · unfold classify_span_line
    rw [if_pos hc]
  · unfold classify_span_line
    rw [if_pos hc]
    simp

/-- witness C7 -/
theorem chord_majority_witness :
    (pySplit "E A G".toList).isEmpty = false
    ∧ 5 * ((pySplit "E A G".toList).countP looks_like_chord) > 3 * (pySplit "E A G".toList).length
    ∧ classify_span_line "E A G".toList 12 true = SpanRole.chordLine
    ∧ classify_span_line "E A G".toList 12 true ≠ SpanRole.title := by
  refine ⟨by decide, by decide, ?_⟩
  exact chord_majority_wins_classification "E A G".toList 12 true (by decide) (by decide)

/-- C8: a run is classified Title only if all of: it is not a chord line,
the accent (pink) flag is set, the font size is at least 12 pt, at least
70% of its letters — after discounting a biblical-reference-shaped prefix
and parenthesised text — are uppercase, its stripped length exceeds 4, no
role-marker token occurs in it, and no capo keyword occurs in it. -/
theorem title_criteria_necessary (text : List Char) (fs : ℚ) (pink : Bool)
    (h : is_title_line text fs pink = true) :
    is_chord_line_text (pyStrip text) = false
    ∧ pink = true
    ∧ fs ≥ 12
    ∧ 10 * ((titleCaseCheckText (pyStrip text)).countP pyIsUpper)
        ≥ 7 * ((titleCaseCheckText (pyStrip text)).countP pyIsUpper
            + (titleCaseCheckText (pyStrip text)).countP pyIsLower)
    ∧ (pyStrip text).length > 4
    ∧ (∀ r ∈ span_role_markers, containsSub (pyStrip text) r.toList = false)
    ∧ containsSub ((pyStrip text).map pyToLower) "kapodaster".toList = false := by
  unfold is_title_line at h
  dsimp only at h
  simp only [Bool.and_eq_true, Bool.not_eq_true', decide_eq_true_eq, List.any_eq_false] at h
  obtain ⟨⟨⟨⟨⟨⟨hup, hlen⟩, hfs⟩, hpink⟩, hrole⟩, hchord⟩, hkapo⟩ := h
  refine ⟨hchord, hpink, hfs, ?_, hlen, fun r hr => Bool.not_eq_true _ ▸ (by simpa using hrole r hr), hkapo⟩
  unfold titleMostlyUppercase at hup
  dsimp only at hup
  by_cases he : (titleCaseCheckText (pyStrip text)).isEmpty = true
  · have : titleCaseCheckText (pyStrip text) = [] := by
      cases hx : titleCaseCheckText (pyStrip text) with
      | nil => rfl
      | cons a l => rw [hx] at he; simp at he
    rw [this]
    simp [List.countP, List.countP.go]
  · rw [if_pos (by simp [he])] at hup
    by_cases hpos : 0 < (titleCaseCheckText (pyStrip text)).countP pyIsUpper
        + (titleCaseCheckText (pyStrip text)).countP pyIsLower
    · rw [if_pos hpos] at hup
      exact of_decide_eq_true hup
    · omega

/-- witness C8 -/
theorem title_criteria_witness :
    is_title_line "SLAVA BOGU".toList 12 true = true
    ∧ (is_chord_line_text (pyStrip "SLAVA BOGU".toList) = false
        ∧ true = true
        ∧ (12:ℚ) ≥ 12
        ∧ 10 * ((titleCaseCheckText (pyStrip "SLAVA BOGU".toList)).countP pyIsUpper)
            ≥ 7 * ((titleCaseCheckText (pyStrip "SLAVA BOGU".toList)).countP pyIsUpper
                + (titleCaseCheckText (pyStrip "SLAVA BOGU".toList)).countP pyIsLower)
        ∧ (pyStrip "SLAVA BOGU".toList).length > 4
        ∧ (∀ r ∈ span_role_markers, containsSub (pyStrip "SLAVA BOGU".toList) r.toList = false)
        ∧ containsSub ((pyStrip "SLAVA BOGU".toList).map pyToLower) "kapodaster".toList = false) := by
  have h : is_title_line "SLAVA BOGU".toList 12 true = true := by decide
  exact ⟨h, title_criteria_necessary "SLAVA BOGU".toList 12 true h⟩

theorem find?_range'_eq_some (p : ℕ → Bool) (j : ℕ) :
    ∀ (n s : ℕ), s ≤ j → j < s + n → p j = true → (∀ k, s ≤ k → k < j → p k = false) →
      (List.range' s n).find? p = some j := by
  intro n
  induction n with
  | zero => intro s h1 h2; omega
  | succ n ih =>
      intro s h1 h2 hp hmin
      rw [List.range'_succ, List.find?_cons]
      rcases eq_or_lt_of_le h1 with hs | hs
      · subst hs
        rw [hp]
      · have hps : p s = false := hmin s (le_refl s) hs
        rw [hps]
        exact ih (s + 1) hs (by omega) hp (fun k hk1 hk2 => hmin k (by omega) hk2)

/-- C9: for every token that is not itself a valid chord but splits at
some internal index into two valid chords, `_split_compound_chord` tries
the split points in increasing order and returns the two parts of the
first (leftmost) valid split. -/
theorem compound_chord_leftmost_split (w : List Char) (j : ℕ)
    (hw : validChord w = false)
    (hj1 : 1 ≤ j) (hj2 : j < w.length)
    (hvl : validChord (w.take j) = true) (hvr : validChord (w.drop j) = true)
    (hmin : ∀ k, 1 ≤ k → k < j → (validChord (w.take k) && validChord (w.drop k)) = false) :
    split_compound_chord w = [w.take j, w.drop j] := by
  unfold split_compound_chord
  obtain ⟨f, hf⟩ : ∃ f, w.length = f + 1 := ⟨w.length - 1, by omega⟩
  rw [hf]
  unfold splitCompoundFuel
  rw [if_neg (by simp [hw])]
  have hfind : (List.range' 1 (w.length - 1)).find?
      (fun i => validChord (w.take i) && validChord (w.drop i)) = some j := by
    apply find?_range'_eq_some _ _ _ _ hj1 (by omega) (by simp [hvl, hvr]) hmin
  rw [hfind]
  dsimp only
  have hfge : 1 ≤ f := by omega
  obtain ⟨f2, hf2⟩ : ∃ f2, f = f2 + 1 := ⟨f - 1, by omega⟩
  rw [hf2]
  unfold splitCompoundFuel
  rw [if_pos hvr]

/-- witness C9 -/
theorem compound_chord_split_witness :
    validChord "FE".toList = false
    ∧ validChord ("FE".toList.take 1) = true
    ∧ validChord ("FE".toList.drop 1) = true
    ∧ split_compound_chord "FE".toList = ["FE".toList.take 1, "FE".toList.drop 1] := by
  refine ⟨by decide, by decide, by decide, ?_⟩
  exact compound_chord_leftmost_split "FE".toList 1 (by decide) (by decide) (by decide)
    (by decide) (by decide) (fun k hk1 hk2 => absurd (lt_of_le_of_lt hk1 hk2) (lt_irrefl _))

theorem dropTakeAppend (l : List Char) (p b : ℕ) (h : p ≤ b) :
    (l.take b).drop p ++ l.drop b = l.drop p := by
  by_cases hl : p ≤ l.length
  · conv_rhs => rw [← List.take_append_drop b l]
    rw [List.drop_append_eq_append_drop]
    have hmin : p ≤ (l.take b).length := by
      rw [List.length_take]
      exact le_min h hl
    rw [Nat.sub_eq_zero_of_le hmin, List.drop_zero]
  · have h1 : l.drop p = [] := List.drop_eq_nil_of_le (by omega)
    have h2 : (l.take b).drop p = [] := List.drop_eq_nil_of_le (by
      rw [List.length_take]; omega)
    have h3 : l.drop b = [] := List.drop_eq_nil_of_le (by omega)
    rw [h1, h2, h3]
    rfl

theorem toChordproGo_eq_join (text : List Char) :
    ∀ (cs : List MChord) (p : ℕ),
      toChordproGo text cs p = ((chordproPieces text cs p).map (Sum.elim id id)).flatten := by
  intro cs
  induction cs with
  | nil => intro p; simp [toChordproGo, chordproPieces]
  | cons c rest ih =>
      intro p
      unfold toChordproGo chordproPieces
      by_cases h1 : (text.length : ℤ) ≤ c.position
      · rw [if_pos h1, if_pos h1]
        simp [ih, List.append_assoc]
      · rw [if_neg h1, if_neg h1]
        by_cases h2 : (p : ℤ) < c.position
        · rw [if_pos h2, if_pos h2]
          simp [ih, List.append_assoc]
        · rw [if_neg h2, if_neg h2]
          simp [ih]

theorem chordproPieces_lyrics (text : List Char) :
    ∀ (cs : List MChord) (p : ℕ),
      (((chordproPieces text cs p).filterMap pieceText).flatten) = text.drop p := by
  intro cs
  induction cs with
  | nil => intro p; simp [chordproPieces, pieceText]
  | cons c rest ih =>
      intro p
      unfold chordproPieces
      by_cases h1 : (text.length : ℤ) ≤ c.position
      · rw [if_pos h1]
        simp [pieceText, ih, List.drop_length]
      · rw [if_neg h1]
        by_cases h2 : (p : ℤ) < c.position
        · rw [if_pos h2]
          simp only [List.filterMap_cons, pieceText, List.flatten_cons]
          rw [ih]
          exact dropTakeAppend text p c.position.toNat (by omega)
        · rw [if_neg h2]
          simp only [List.filterMap_cons, pieceText]
          exact ih p

/-- C10: for every lyric text and every chord list with arbitrary integer
positions, `to_chordpro` produces an interleaving of lyric slices and
inserted `[ChordName]` tokens whose lyric slices concatenate to exactly
the original text — no lyric character is duplicated or lost — and with
an empty chord list it returns the text unchanged. -/
theorem to_chordpro_preserves_lyrics (text : List Char) (chords : List MChord) :
    to_chordpro text chords
      = ((chordproPieces text
          (List.insertionSort (fun a b => a.position ≤ b.position) chords) 0).map
            (Sum.elim id id)).flatten
    ∧ ((chordproPieces text
          (List.insertionSort (fun a b => a.position ≤ b.position) chords) 0).filterMap
            pieceText).flatten = text
    ∧ (chords = [] → to_chordpro text chords = text) := by
  refine ⟨?_, ?_, ?_⟩
  · unfold to_chordpro
    by_cases h : chords.isEmpty = true
    · have hnil : chords = [] := List.isEmpty_iff.mp h
      subst hnil
      simp [chordproPieces, toChordproGo, List.insertionSort]
    · rw [if_neg (by simp [h])]
      exact toChordproGo_eq_join text _ 0
  · rw [chordproPieces_lyrics]
    rfl
  · intro h
    subst h
    rfl

/-- witness C10 -/
theorem to_chordpro_witness :
    to_chordpro "ab".toList [] = "ab".toList := by
  exact (to_chordpro_preserves_lyrics "ab".toList []).2.2 rfl
